import Mathlib

/-!
# paas-audit-to-splunk: collector, authenticator and deduplicator

A shallow embedding of `collector.go`, `auth.go` and `deduplicator.go`.

Conventions of the embedding

* A Go `[]byte` is a list of bytes, a Go `string` a `String`, a Go slice a `List`.
* A Go `error` is an `Option String` (`none` is `nil`); a Go pair `(v, err)` keeps both parts.
* An instant (`time.Time`) is a number of nanoseconds on the time line, a `time.Duration` a
  number of nanoseconds.
* The Go field name `Type` is written `Type_`.
* A channel is the list of the messages sent on it so far, oldest first.
* The HTTP client, the clock and `encoding/json` are parameters of the functions that use them.
* `recursivelyGather` recurses once per page, so it takes fuel: `none` means the fuel ran out.
-/

namespace AuditToSplunk

/-! ## Data model (collector.go) -/

/-- Go `[]byte`. -/
abbrev Bytes := List UInt8

/-- An instant of `time.Time`, in nanoseconds. -/
abbrev Time := Int

/-- A `time.Duration`, in nanoseconds. -/
abbrev Duration := Int

/-- The constant `time.Hour`. -/
def Hour : Duration := 3600 * 1000000000

/-- The anonymous struct of `resource.Actor`. -/
structure actor where
  GUID : String
  Type_ : String
  Name : String
  deriving DecidableEq

/-- The anonymous struct of `resource.Target`. -/
structure target where
  GUID : String
  Type_ : String
  Name : String
  deriving DecidableEq

/-- The anonymous struct of `resource.Space`. -/
structure space where
  GUID : String
  deriving DecidableEq

/-- The anonymous struct of `resource.Organization`. -/
structure organization where
  GUID : String
  deriving DecidableEq

/-- The struct `resource`: one audit event. `Data` is an `interface{}` that the program
never inspects; it is carried as the JSON text of the value. -/
structure resource where
  GUID : String
  Type_ : String
  Actor : actor
  Target : target
  Data : String
  Space : space
  Organization : organization
  CreatedAt : Time
  UpdatedAt : Time
  deriving DecidableEq

/-- The anonymous struct of `eventsResponse.Pagination.Next`. -/
structure next where
  Link : String
  deriving DecidableEq

/-- The anonymous struct of `eventsResponse.Pagination`. -/
structure pagination where
  Next : next
  deriving DecidableEq

/-- The struct `eventsResponse`: one page of the audit-event API. -/
structure eventsResponse where
  Resources : List resource
  Pagination : pagination
  deriving DecidableEq

/-- The struct `Collector`, with the fields the collection cycle reads or writes.
`Destination` is the list of messages sent on the channel so far. -/
structure Collector where
  Destination : List Bytes
  CloudFoundryAPI : String
  LastSeenGUID : String
  deriving DecidableEq

/-- What an `*http.Response` holds for this program: the status code and what
`ioutil.ReadAll(res.Body)` returns. -/
structure httpResponse where
  StatusCode : Nat
  Body : Except String Bytes

/-- The surroundings of a collection cycle: `Get` is `c.client.Get`, `Unmarshal` is
`json.Unmarshal` into a fresh `eventsResponse`, `Now n` is what the call number `n` of
`time.Now()` returns during the cycle. The client is an `http.Client` with no
`CheckRedirect`, so it follows the redirects itself: `Get url` is the response that
`c.client.Get` returns, the one at the end of the redirects, or the transport error. -/
structure Upstream where
  Get : String → Except String httpResponse
  Unmarshal : Bytes → Except String eventsResponse
  Now : Nat → Time

/-- The pair `([]resource, error)` that `recursivelyGather` returns, with the URLs it
requested, in the order of the requests. -/
structure gathered where
  data : List resource
  err : Option String
  requests : List String
  deriving DecidableEq

/-! ## collector.go -/

/-- The loop `for i, event := range newResponse.Resources` of `recursivelyGather`: the
index at which it returns, if it does. The second argument is the index of the head. -/
def boundaryIndex (LastSeenGUID : String) (someHoursAgo : Time) :
    List resource → Nat → Option Nat
  | [], _ => none
  | event :: rest, i =>
    if event.GUID = LastSeenGUID ∨ event.CreatedAt < someHoursAgo then some i
    else boundaryIndex LastSeenGUID someHoursAgo rest (i + 1)

/-- The method `Collector.recursivelyGather`. The first `Nat` is the fuel, the second the
number of calls of `time.Now()` made so far in the cycle. -/
def recursivelyGather (w : Upstream) (c : Collector) :
    Nat → Nat → eventsResponse → Option gathered
  | 0, _, _ => none
  | fuel + 1, tick, response =>
    let data := response.Resources
    if response.Pagination.Next.Link = "" then
      some ⟨data, none, []⟩
    else
      let url := c.CloudFoundryAPI ++ response.Pagination.Next.Link
      match w.Get url with
      | .error err =>
        some ⟨data, some ("unable to scrape the audit events: " ++ err), [url]⟩
      | .ok res =>
        match res.Body with
        | .error err =>
          some ⟨data, some ("unable to parse authentication response: " ++ err), [url]⟩
        | .ok body =>
          match w.Unmarshal body with
          | .error err =>
            some ⟨data, some ("unable to unmarshal authentication response: " ++ err), [url]⟩
          | .ok newResponse =>
            let someHoursAgo := w.Now tick + (-1 * 6 * Hour)
            match boundaryIndex c.LastSeenGUID someHoursAgo newResponse.Resources 0 with
            | some i => some ⟨data ++ newResponse.Resources.take i, none, [url]⟩
            | none =>
              match recursivelyGather w c fuel (tick + 1) newResponse with
              | none => none
              | some newData => some ⟨data ++ newData.data, none, url :: newData.requests⟩

/-- The string that `SanitizeAndQueue` writes over the actor name. -/
def anonymous : String := "¯\\_(ツ)_/¯"

/-- The method `Collector.SanitizeAndQueue`; `Marshal` is `json.Marshal` on a `resource`. -/
def SanitizeAndQueue (Marshal : resource → Except String Bytes) (c : Collector) :
    List resource → Collector × Option String
  | [] => (c, none)
  | event :: rest =>
    let event := { event with Actor := { event.Actor with Name := anonymous } }
    match Marshal event with
    | .error err => (c, some ("unable to marshal an event into json: " ++ err))
    | .ok msg =>
      SanitizeAndQueue Marshal { c with Destination := c.Destination ++ [msg] } rest

/-- The request that `collectEvents` starts from: no resources, and the link of the first
page as the next link. -/
def firstPage : eventsResponse :=
  { Resources := [],
    Pagination := { Next := { Link := "/v3/audit_events?order_by=-created_at&per_page=500" } } }

/-- The closure `collectEvents` of `Collector.Collect`: one collection attempt. The result
is the collector after the attempt and the returned error. -/
def collectEvents (w : Upstream) (Marshal : resource → Except String Bytes) (fuel : Nat)
    (c : Collector) : Option (Collector × Option String) :=
  match recursivelyGather w c fuel 0 firstPage with
  | none => none
  | some r =>
    match r.err with
    | some err => some (c, some ("unable to recursively obtain resources: " ++ err))
    | none =>
      let data := r.data
      let c := if h : data.length > 0 then { c with LastSeenGUID := data[0].GUID } else c
      some (SanitizeAndQueue Marshal c data)

/-! ### The retry of `Collector.Collect`

`backoff.Retry` and `backoff.WithMaxRetries` belong to the package
`github.com/cenkalti/backoff` that `collector.go` imports; they are embedded from that
package (`retry.go`, `tries.go`). The wrapped `ExponentialBackOff` stops by itself once its
`MaxElapsedTime` has passed, which depends on real time: it is a parameter, the function
giving what its call number `n` of `NextBackOff` returns (`none` is `backoff.Stop`). -/

/-- The struct `backOffTries` of `tries.go`; `delegateCalls` counts the calls made to the
wrapped policy since `Reset`. -/
structure backOffTries where
  delegate : Nat → Option Duration
  delegateCalls : Nat
  maxTries : Nat
  numTries : Nat

/-- The function `backoff.WithMaxRetries`. -/
def WithMaxRetries (b : Nat → Option Duration) (max : Nat) : backOffTries :=
  { delegate := b, delegateCalls := 0, maxTries := max, numTries := 0 }

/-- The method `backOffTries.NextBackOff`: the policy after the call and the returned
duration (`none` is `backoff.Stop`). -/
def backOffTries.NextBackOff (b : backOffTries) : backOffTries × Option Duration :=
  if b.maxTries > 0 then
    if b.maxTries ≤ b.numTries then (b, none)
    else
      let b := { b with numTries := b.numTries + 1 }
      ({ b with delegateCalls := b.delegateCalls + 1 }, b.delegate b.delegateCalls)
  else
    ({ b with delegateCalls := b.delegateCalls + 1 }, b.delegate b.delegateCalls)

/-- The method `backOffTries.Reset`. -/
def backOffTries.Reset (b : backOffTries) : backOffTries :=
  { b with numTries := 0, delegateCalls := 0 }

/-- What `backoff.Retry` leaves: the state after the last execution of the operation, the
returned error, and how many times the operation was executed. -/
structure retried (σ : Type) where
  state : σ
  err : Option String
  executions : Nat

/-- The loop `for` of `backoff.RetryNotify`. `operation n s` is the execution number `n`
(from 0) of the operation on the state `s`; it gives `none` when the operation does not
return. The first `Nat` is the fuel of the loop, the last one the number of executions made
so far. The errors of `collectEvents` are made by `fmt.Errorf`, never a `*PermanentError`,
and no context is given, so these two exits of the loop are left out. -/
def retryLoop {σ : Type} (operation : Nat → σ → Option (σ × Option String)) :
    Nat → backOffTries → σ → Nat → Option (retried σ)
  | 0, _, _, _ => none
  | fuel + 1, b, s, n =>
    match operation n s with
    | none => none
    | some (s, none) => some ⟨s, none, n + 1⟩
    | some (s, some err) =>
      match b.NextBackOff with
      | (_, none) => some ⟨s, some err, n + 1⟩
      | (b, some _) => retryLoop operation fuel b s (n + 1)

/-- The function `backoff.Retry`. -/
def Retry {σ : Type} (operation : Nat → σ → Option (σ × Option String)) (fuel : Nat)
    (b : backOffTries) (s : σ) : Option (retried σ) :=
  retryLoop operation fuel b.Reset s 0

/-- How one tick of `Collector.Collect` ends: back in the `select`, waiting for the next
tick, or in `log.Fatalf`. -/
inductive tickEnd where
  | waiting (c : Collector)
  | fatal (c : Collector) (message : String)
  deriving DecidableEq

/-- The body of `case <-ticker.C` in `Collector.Collect`. `w n` is the upstream at the
execution number `n` of `collectEvents`, `gatherFuel` the fuel of each execution,
`retryFuel` the fuel of the retry loop. The result is how the tick ends and how many times
`collectEvents` was executed. -/
def Collect.tick (w : Nat → Upstream) (Marshal : resource → Except String Bytes)
    (delegate : Nat → Option Duration) (gatherFuel retryFuel : Nat) (c : Collector) :
    Option (tickEnd × Nat) :=
  let collectEvents := fun n c => collectEvents (w n) Marshal gatherFuel c
  match Retry collectEvents retryFuel (WithMaxRetries delegate 10) c with
  | none => none
  | some r =>
    match r.err with
    | some err =>
      some (.fatal r.state ("Collector: Fatal err encountered after 10 retries: " ++ err ++ "\n"),
        r.executions)
    | none => some (.waiting r.state, r.executions)

/-! ## auth.go -/

/-- The struct `uaaTokenResponse`. -/
structure uaaTokenResponse where
  AccessToken : String
  deriving DecidableEq

/-- The struct `Auth`. -/
structure Auth where
  UAAAPI : String
  UAAClientID : String
  UAAClientSecret : String
  tokens : uaaTokenResponse
  deriving DecidableEq

/-- The surroundings of `Authenticate`: `NewRequest method url` is the error of
`http.NewRequest`, `Do url` is `httpClient.Do` on the request to `url`, and
`Unmarshal body tokens` is `json.Unmarshal(body, &a.tokens)`: the record after the call and
the returned error. -/
structure UAA where
  NewRequest : String → String → Option String
  Do : String → Except String httpResponse
  Unmarshal : Bytes → uaaTokenResponse → uaaTokenResponse × Option String

/-- The method `Auth.Authenticate`: the `Auth` after the call and the returned error. -/
def Auth.Authenticate (u : UAA) (a : Auth) : Auth × Option String :=
  let url := a.UAAAPI ++ "/oauth/token"
  match u.NewRequest "POST" url with
  | some err => (a, some ("unable to prepare authentication request: " ++ err))
  | none =>
    match u.Do url with
    | .error err => (a, some ("unable to perform authentication request: " ++ err))
    | .ok res =>
      match res.Body with
      | .error err => (a, some ("unable to parse authentication response: " ++ err))
      | .ok body =>
        match u.Unmarshal body a.tokens with
        | (tokens, some err) =>
          ({ a with tokens := tokens },
            some ("unable to unmarshal authentication response: " ++ err))
        | (tokens, none) => ({ a with tokens := tokens }, none)

/-- The method `Auth.AccessToken`. -/
def Auth.AccessToken (a : Auth) : String :=
  a.tokens.AccessToken

/-! ## deduplicator.go -/

/-- The operations of `bloom.BloomFilter` (package `github.com/willf/bloom`) that
`Deduplicate` uses, over a type `σ` of filter states. -/
structure BloomFilter where
  σ : Type
  New : Nat → Nat → σ
  Test : σ → Bytes → Bool
  Add : σ → Bytes → σ

/-- The state of the loop of `Deduplicate`: the filter `seenEvents`, the messages sent on
`d.Destination` so far, and the lines logged so far. -/
structure deduplicating (F : BloomFilter) where
  seenEvents : F.σ
  Destination : List Bytes
  log : List String

/-- The body of `case msg := <-d.Source` in `Deduplicate`. -/
def Deduplicate.receive (F : BloomFilter) (d : deduplicating F) (msg : Bytes) :
    deduplicating F :=
  if !F.Test d.seenEvents msg then
    { d with Destination := d.Destination ++ [msg], seenEvents := F.Add d.seenEvents msg }
  else
    { d with log := d.log ++ ["Deduplicator: Deduplicated an event"] }

/-- The method `Deduplicator.Deduplicate`, run on the messages that `d.Source` delivers,
in the order of their delivery. -/
def Deduplicate (F : BloomFilter) (Source : List Bytes) : deduplicating F :=
  Source.foldl (Deduplicate.receive F)
    { seenEvents := F.New (1024 * 42) 9, Destination := [], log := ["Deduplicator: Start"] }

/-! ## Vocabulary of the properties -/

/-- A boundary event: its GUID is the checkpoint, or it was created before `now` minus six
hours. -/
def isBoundary (checkpoint : String) (now : Time) (e : resource) : Bool :=
  decide (e.GUID = checkpoint) || decide (e.CreatedAt < now - 6 * Hour)

/-- The page that the request of `link` yields when the transport, the read of the body and
the decoding all succeed. -/
def fetchPage (w : Upstream) (c : Collector) (link : String) : Option eventsResponse :=
  match w.Get (c.CloudFoundryAPI ++ link) with
  | .error _ => none
  | .ok res =>
    match res.Body with
    | .error _ => none
    | .ok body =>
      match w.Unmarshal body with
      | .error _ => none
      | .ok page => some page

/-- A finite chain of pages: `link` is a link that fetches the first page, each page but the
last has a next link that fetches the page after it, and the last page has no next link. -/
def Chain (w : Upstream) (c : Collector) : String → List eventsResponse → Prop
  | _, [] => False
  | link, [p] => link ≠ "" ∧ fetchPage w c link = some p ∧ p.Pagination.Next.Link = ""
  | link, p :: q :: rest =>
    link ≠ "" ∧ fetchPage w c link = some p ∧ Chain w c p.Pagination.Next.Link (q :: rest)

/-- The events of a chain of pages, in the order of the pages. -/
def allEvents (pages : List eventsResponse) : List resource :=
  (pages.map (fun p => p.Resources)).flatten

/-- The links of the pages of a chain, in order: the link of the first page, then the next
link of every page (the last one is empty). -/
def pageLinks (link : String) (pages : List eventsResponse) : List String :=
  link :: pages.map (fun p => p.Pagination.Next.Link)

/-- An event of the page is a boundary event. -/
def hasBoundary (checkpoint : String) (now : Time) (p : eventsResponse) : Bool :=
  p.Resources.any (isBoundary checkpoint now)

/-- The event `e` with the actor name `name`. -/
def renamed (e : resource) (name : String) : resource :=
  { e with Actor := { e.Actor with Name := name } }

/-- The event `e'` is the event `e` with the actor name replaced by the placeholder: every
other field is the one of `e`. -/
def anonymised (e e' : resource) : Prop :=
  e'.Actor.Name = anonymous ∧ e'.GUID = e.GUID ∧ e'.Type_ = e.Type_ ∧
    e'.Actor.GUID = e.Actor.GUID ∧ e'.Actor.Type_ = e.Actor.Type_ ∧ e'.Target = e.Target ∧
    e'.Data = e.Data ∧ e'.Space = e.Space ∧ e'.Organization = e.Organization ∧
    e'.CreatedAt = e.CreatedAt ∧ e'.UpdatedAt = e.UpdatedAt

/-- The upstream `w` with every status code replaced: `f url status` is the new status of
the response to `url`. -/
def withStatus (f : String → Nat → Nat) (w : Upstream) : Upstream :=
  { w with Get := fun url =>
      match w.Get url with
      | .error err => .error err
      | .ok res => .ok { res with StatusCode := f url res.StatusCode } }

/-- The filter has no false negatives: a payload that was added tests present, whatever was
added before and after it. -/
def NoFalseNegatives (F : BloomFilter) : Prop :=
  ∀ (m k : Nat) (added : List Bytes) (x : Bytes),
    x ∈ added → F.Test (added.foldl F.Add (F.New m k)) x = true

/-- The filter has no false positives: a payload that tests present was added. -/
def NoFalsePositives (F : BloomFilter) : Prop :=
  ∀ (m k : Nat) (added : List Bytes) (x : Bytes),
    F.Test (added.foldl F.Add (F.New m k)) x = true → x ∈ added

/-- The first occurrence of each distinct payload, in the order of the list. -/
def firstOccurrences : List Bytes → List Bytes
  | [] => []
  | x :: rest => x :: (firstOccurrences rest).filter (fun y => decide (y ≠ x))

/-- The execution number `n + k` of the operation, when the execution number `n` starts
from the state `s` and the executions follow one another, each from the state the one
before it left. -/
def executionFrom {σ : Type} (operation : Nat → σ → Option (σ × Option String)) :
    Nat → σ → Nat → Option (σ × Option String)
  | n, s, 0 => operation n s
  | n, s, k + 1 =>
    match operation n s with
    | none => none
    | some (s, _) => executionFrom operation (n + 1) s k

/-- The execution number `k` (from 0) of `collectEvents` in a tick that starts from the
collector `c`. -/
def attempt (w : Nat → Upstream) (Marshal : resource → Except String Bytes) (gatherFuel : Nat)
    (c : Collector) (k : Nat) : Option (Collector × Option String) :=
  executionFrom (fun n c => collectEvents (w n) Marshal gatherFuel c) 0 c k

/-! ## Sample data -/

/-- The bytes of a text, as the Go conversion `[]byte(s)` gives them. -/
def utf8 (s : String) : Bytes :=
  s.toList.flatMap String.utf8EncodeChar

/-- An upstream given by tables: the result of `Get` per URL (any other URL fails in
transport), the decoding per body (any other body is rejected), and a fixed clock. -/
def serve (routes : List (String × Except String httpResponse))
    (bodies : List (Bytes × eventsResponse)) (now : Time) : Upstream :=
  { Get := fun url =>
      match routes.lookup url with
      | some result => result
      | none => .error "dial tcp: no such host"
    Unmarshal := fun body =>
      match bodies.lookup body with
      | some page => .ok page
      | none => .error "invalid character"
    Now := fun _ => now }

/-- A sample instant. -/
def sampleNow : Time := 400000 * Hour

/-- A sample event with the given GUID, created the given number of minutes before
`sampleNow`. -/
def sampleEvent (guid : String) (minutesAgo : Int) : resource :=
  { GUID := guid,
    Type_ := "audit.app.update",
    Actor := { GUID := "u-1", Type_ := "user", Name := "alice@example.com" },
    Target := { GUID := "app-1", Type_ := "app", Name := "dora" },
    Data := "null",
    Space := { GUID := "s-1" },
    Organization := { GUID := "o-1" },
    CreatedAt := sampleNow - minutesAgo * (60 * 1000000000),
    UpdatedAt := sampleNow - minutesAgo * (60 * 1000000000) }

/-- A sample collector with the given checkpoint. -/
def sampleCollector (checkpoint : String) : Collector :=
  { Destination := [], CloudFoundryAPI := "https://api.example.com", LastSeenGUID := checkpoint }

/-- The URL of the first page for `sampleCollector`. -/
def sampleFirstURL : String :=
  "https://api.example.com/v3/audit_events?order_by=-created_at&per_page=500"

/-- A page with no next link. -/
def lastPage (events : List resource) : eventsResponse :=
  { Resources := events, Pagination := { Next := { Link := "" } } }

/-- An upstream with one page, which has no next link. -/
def onePage (events : List resource) : Upstream :=
  serve [(sampleFirstURL, .ok ⟨200, .ok (utf8 "page-1")⟩)] [(utf8 "page-1", lastPage events)]
    sampleNow

/-- A page with the given next link. -/
def linkedPage (events : List resource) (link : String) : eventsResponse :=
  { Resources := events, Pagination := { Next := { Link := link } } }

/-- A first page of two events, with a next link. -/
def pageOne : eventsResponse :=
  linkedPage [sampleEvent "g9" 10, sampleEvent "g8" 20] "/v3/audit_events?page=2&per_page=500"

/-- A last page of one event. -/
def pageThree : eventsResponse :=
  lastPage [sampleEvent "g3" 70]

/-- The first page of `edgePages`: one event, created 359 minutes before `sampleNow`. -/
def edgeOne : eventsResponse :=
  linkedPage [sampleEvent "g9" 359] "/v3/audit_events?page=2&per_page=500"

/-- The second page of `edgePages`: one event, created 359 minutes before `sampleNow`. -/
def edgeTwo : eventsResponse :=
  linkedPage [sampleEvent "g8" 359] "/v3/audit_events?page=3&per_page=500"

/-- An upstream with the three pages `edgeOne`, `edgeTwo`, `pageThree` and a clock that
advances by two minutes at each call: the event of the first page is within the six hours
when the first page is scanned, the event of the second page is no longer within them when
the second page is scanned. -/
def edgePages : Upstream :=
  { serve
      [(sampleFirstURL, .ok ⟨200, .ok (utf8 "page-1")⟩),
        ("https://api.example.com/v3/audit_events?page=2&per_page=500",
          .ok ⟨200, .ok (utf8 "page-2")⟩),
        ("https://api.example.com/v3/audit_events?page=3&per_page=500",
          .ok ⟨200, .ok (utf8 "page-3")⟩)]
      [(utf8 "page-1", edgeOne), (utf8 "page-2", edgeTwo), (utf8 "page-3", pageThree)]
      sampleNow with
    Now := fun n => sampleNow + n * (120 * 1000000000) }

/-- A stand-in for `json.Marshal`: the GUID and the actor name of the event. -/
def sampleMarshal (e : resource) : Except String Bytes :=
  .ok (utf8 (e.GUID ++ " " ++ e.Actor.Name))

/-- A `json.Marshal` that fails on every event. -/
def failingMarshal (_ : resource) : Except String Bytes :=
  .error "json: unsupported value"

/-- Three events, newest first, all created within the last hour. -/
def threeEvents : List resource :=
  [sampleEvent "g9" 10, sampleEvent "g8" 20, sampleEvent "g7" 30]

/-- An upstream that answers the first request with `pageOne` and fails in transport on the
request of the second page. -/
def secondPageDown : Upstream :=
  serve
    [(sampleFirstURL, .ok ⟨200, .ok (utf8 "page-1")⟩),
      ("https://api.example.com/v3/audit_events?page=2&per_page=500",
        .error "read tcp: connection reset by peer")]
    [(utf8 "page-1", pageOne)]
    sampleNow

/-- An upstream on which every request fails in transport. -/
def allDown : Upstream :=
  serve [] [] sampleNow

/-- The body of an error response of the API: a JSON object with the key `errors` only. -/
def errorBody : Bytes :=
  utf8 "\x7b\"errors\":[]\x7d"

/-- An upstream that answers the first request with the status 500 and `errorBody`, which
`json.Unmarshal` decodes into an `eventsResponse` with every field zero, as none of its keys
is a field of the struct. -/
def serverError : Upstream :=
  serve [(sampleFirstURL, .ok ⟨500, .ok errorBody⟩)] [(errorBody, lastPage [])] sampleNow

/-- A filter that keeps the list of the payloads added: it has neither false negatives nor
false positives. -/
def exactFilter : BloomFilter :=
  { σ := List Bytes
    New := fun _ _ => []
    Test := fun seen x => seen.contains x
    Add := fun seen x => x :: seen }

/-- A stand-in for `json.Unmarshal` into `uaaTokenResponse` on two bodies: the empty object,
which leaves the record as it is, and an object with the key `access_token`, which sets the
field; any other body is rejected. -/
def sampleTokenUnmarshal (body : Bytes) (tokens : uaaTokenResponse) :
    uaaTokenResponse × Option String :=
  if body = utf8 "\x7b\x7d" then (tokens, none)
  else if body = utf8 "\x7b\"access_token\":\"t0ken\"\x7d" then ({ AccessToken := "t0ken" }, none)
  else (tokens, some "invalid character")

/-- An authorization server that answers the token request with the status 200 and the
given body. -/
def sampleUAA (body : Bytes) : UAA :=
  { NewRequest := fun _ _ => none
    Do := fun url =>
      if url = "https://uaa.example.com/oauth/token" then .ok ⟨200, .ok body⟩
      else .error "dial tcp: no such host"
    Unmarshal := sampleTokenUnmarshal }

/-- A sample `Auth`, before `Authenticate`. -/
def sampleAuth : Auth :=
  { UAAAPI := "https://uaa.example.com", UAAClientID := "client", UAAClientSecret := "secret",
    tokens := { AccessToken := "" } }

/-- A wrapped policy that never stops: every call gives half a second. -/
def neverStops (_ : Nat) : Option Duration :=
  some 500000000

/-- The upstream is down during the first two executions of a tick and serves one page of
three events afterwards. -/
def downTwice (n : Nat) : Upstream :=
  if n < 2 then allDown else onePage threeEvents

/-- Six events, newest first, all created within the last hour. -/
def sixEvents : List resource :=
  [sampleEvent "g9" 10, sampleEvent "g8" 20, sampleEvent "g7" 30, sampleEvent "g6" 40,
    sampleEvent "g5" 50, sampleEvent "g4" 60]

/-! ## Lemmas and theorems -/

/-! ### The scan of a chain of pages (C1, C10) -/

theorem someHoursAgo_eq (t : Time) : t + (-1 * 6 * Hour) = t - 6 * Hour := by
  show (t + (-1 * 6 * Hour) : Int) = t - 6 * Hour
  ring

theorem isBoundary_iff (g : String) (t : Time) (e : resource) :
    isBoundary g t e = true ↔ (e.GUID = g ∨ e.CreatedAt < t + (-1 * 6 * Hour)) := by
  rw [someHoursAgo_eq]
  simp [isBoundary]

theorem boundaryIndex_some (g : String) (t : Time) (l : List resource) (k i : Nat)
    (h : boundaryIndex g (t + (-1 * 6 * Hour)) l k = some i) :
    k ≤ i ∧ l.take (i - k) = l.takeWhile (fun e => !isBoundary g t e) ∧
      l.any (isBoundary g t) = true := by
  induction l generalizing k with
  | nil => simp [boundaryIndex] at h
  | cons e rest ih =>
    unfold boundaryIndex at h
    by_cases hb : e.GUID = g ∨ e.CreatedAt < t + (-1 * 6 * Hour)
    · rw [if_pos hb] at h
      have hi : i = k := by injection h with h; exact h.symm
      subst hi
      have hB : isBoundary g t e = true := (isBoundary_iff g t e).2 hb
      simp [hB]
    · rw [if_neg hb] at h
      have hB : isBoundary g t e = false := by
        rw [← Bool.not_eq_true]
        exact fun h1 => hb ((isBoundary_iff g t e).1 h1)
      obtain ⟨h1, h2, h3⟩ := ih (k + 1) h
      refine ⟨by omega, ?_, ?_⟩
      · have : i - k = (i - (k + 1)) + 1 := by omega
        rw [this]
        simp [hB, h2]
      · simp [h3]

theorem boundaryIndex_none (g : String) (t : Time) (l : List resource) (k : Nat)
    (h : boundaryIndex g (t + (-1 * 6 * Hour)) l k = none) :
    l.takeWhile (fun e => !isBoundary g t e) = l ∧ l.any (isBoundary g t) = false := by
  induction l generalizing k with
  | nil => simp
  | cons e rest ih =>
    unfold boundaryIndex at h
    by_cases hb : e.GUID = g ∨ e.CreatedAt < t + (-1 * 6 * Hour)
    · rw [if_pos hb] at h
      simp at h
    · rw [if_neg hb] at h
      have hB : isBoundary g t e = false := by
        rw [← Bool.not_eq_true]
        exact fun h1 => hb ((isBoundary_iff g t e).1 h1)
      obtain ⟨h1, h2⟩ := ih (k + 1) h
      simp [hB, h1, h2]

theorem fetchPage_some (w : Upstream) (c : Collector) (link : String) (p : eventsResponse)
    (h : fetchPage w c link = some p) :
    ∃ res body, w.Get (c.CloudFoundryAPI ++ link) = .ok res ∧ res.Body = .ok body ∧
      w.Unmarshal body = .ok p := by
  unfold fetchPage at h
  split at h
  · simp at h
  · rename_i res hres
    split at h
    · simp at h
    · rename_i body hbody
      split at h
      · simp at h
      · rename_i page hpage
        refine ⟨res, body, hres, hbody, ?_⟩
        rw [hpage]
        simp only [Option.some.injEq] at h
        rw [h]

theorem recursivelyGather_fetched (w : Upstream) (c : Collector) (fuel tick : Nat)
    (response p : eventsResponse) (hlink : response.Pagination.Next.Link ≠ "")
    (hf : fetchPage w c response.Pagination.Next.Link = some p) :
    recursivelyGather w c (fuel + 1) tick response =
      match boundaryIndex c.LastSeenGUID (w.Now tick + (-1 * 6 * Hour)) p.Resources 0 with
      | some i =>
        some ⟨response.Resources ++ p.Resources.take i, none,
          [c.CloudFoundryAPI ++ response.Pagination.Next.Link]⟩
      | none =>
        match recursivelyGather w c fuel (tick + 1) p with
        | none => none
        | some newData =>
          some ⟨response.Resources ++ newData.data, none,
            (c.CloudFoundryAPI ++ response.Pagination.Next.Link) :: newData.requests⟩ := by
  obtain ⟨res, body, h1, h2, h3⟩ := fetchPage_some w c _ p hf
  rw [recursivelyGather]
  simp only [hlink, if_false, h1, h2, h3]

theorem recursivelyGather_last (w : Upstream) (c : Collector) (fuel tick : Nat)
    (response : eventsResponse) (hlink : response.Pagination.Next.Link = "") :
    recursivelyGather w c (fuel + 1) tick response = some ⟨response.Resources, none, []⟩ := by
  rw [recursivelyGather]
  simp only [hlink, if_true]

theorem takeWhile_append_all {α : Type} (f : α → Bool) (l₁ l₂ : List α)
    (h : ∀ x ∈ l₁, f x = true) : (l₁ ++ l₂).takeWhile f = l₁ ++ l₂.takeWhile f := by
  induction l₁ with
  | nil => rfl
  | cons a l ih =>
    have ha : f a = true := h a (List.mem_cons_self a l)
    have hl : ∀ x ∈ l, f x = true := fun x hx => h x (List.mem_cons_of_mem a hx)
    simp [List.takeWhile_cons, ha, ih hl]

theorem takeWhile_append_any {α : Type} (f : α → Bool) (l₁ l₂ : List α)
    (h : ∃ x ∈ l₁, f x = false) : (l₁ ++ l₂).takeWhile f = l₁.takeWhile f := by
  induction l₁ with
  | nil => obtain ⟨x, hx, _⟩ := h; cases hx
  | cons a l ih =>
    cases ha : f a with
    | false => simp [List.takeWhile_cons, ha]
    | true =>
      obtain ⟨x, hx, hfx⟩ := h
      have hx2 : x ∈ l := by
        rcases List.mem_cons.1 hx with rfl | hx
        · rw [ha] at hfx; cases hfx
        · exact hx
      simp [List.takeWhile_cons, ha, ih ⟨x, hx2, hfx⟩]

/-- The links that a cycle over a chain requests: those of the pages up to and including the
first page that holds a boundary event, or all of them. -/
theorem gather_chain (w : Upstream) (c : Collector) (now : Time) (hclock : ∀ n, w.Now n = now)
    (pages : List eventsResponse) :
    ∀ (fuel tick : Nat) (response : eventsResponse),
      Chain w c response.Pagination.Next.Link pages → pages.length < fuel →
      ∃ r, recursivelyGather w c fuel tick response = some r ∧ r.err = none ∧
        r.data = response.Resources ++
          (allEvents pages).takeWhile (fun e => !isBoundary c.LastSeenGUID now e) ∧
        r.requests = ((pageLinks response.Pagination.Next.Link pages).take
          (min ((pages.takeWhile (fun p => !hasBoundary c.LastSeenGUID now p)).length + 1)
            pages.length)).map (fun l => c.CloudFoundryAPI ++ l) := by
  induction pages with
  | nil => intro fuel tick response h; exact absurd h (by simp [Chain])
  | cons p rest ih =>
    intro fuel tick response hchain hfuel
    obtain ⟨fuel, rfl⟩ : ∃ f, fuel = f + 1 := ⟨fuel - 1, by omega⟩
    have hlink : response.Pagination.Next.Link ≠ "" := by
      cases rest with
      | nil => exact hchain.1
      | cons q rest => exact hchain.1
    have hf : fetchPage w c response.Pagination.Next.Link = some p := by
      cases rest with
      | nil => exact hchain.2.1
      | cons q rest => exact hchain.2.1
    rw [recursivelyGather_fetched w c fuel tick response p hlink hf, hclock]
    cases hb : boundaryIndex c.LastSeenGUID (now + (-1 * 6 * Hour)) p.Resources 0 with
    | some i =>
      obtain ⟨_, h2, h3⟩ := boundaryIndex_some _ _ _ _ _ hb
      have hany : hasBoundary c.LastSeenGUID now p = true := h3
      have hex : ∃ x ∈ p.Resources, (!isBoundary c.LastSeenGUID now x) = false := by
        rw [List.any_eq_true] at h3
        obtain ⟨x, hx, hx2⟩ := h3
        exact ⟨x, hx, by simp [hx2]⟩
      refine ⟨_, rfl, rfl, ?_, ?_⟩
      · simp only [allEvents, List.map_cons, List.flatten_cons]
        rw [takeWhile_append_any _ _ _ hex, ← h2]
        simp
      · simp [pageLinks, hany]
    | none =>
      obtain ⟨h2, h3⟩ := boundaryIndex_none _ _ _ _ hb
      have hany : hasBoundary c.LastSeenGUID now p = false := h3
      have hall : ∀ x ∈ p.Resources, (!isBoundary c.LastSeenGUID now x) = true := by
        rw [List.any_eq_false] at h3
        intro x hx
        simpa using h3 x hx
      have hdata : (allEvents (p :: rest)).takeWhile (fun e => !isBoundary c.LastSeenGUID now e)
          = p.Resources ++
            (allEvents rest).takeWhile (fun e => !isBoundary c.LastSeenGUID now e) := by
        simp only [allEvents, List.map_cons, List.flatten_cons]
        exact takeWhile_append_all _ _ _ hall
      cases rest with
      | nil =>
        have hlast : p.Pagination.Next.Link = "" := hchain.2.2
        obtain ⟨fuel, rfl⟩ : ∃ f, fuel = f + 1 := ⟨fuel - 1, by simp at hfuel; omega⟩
        simp only [recursivelyGather_last w c _ _ p hlast]
        refine ⟨_, rfl, rfl, ?_, ?_⟩
        · rw [hdata]; simp [allEvents]
        · simp [pageLinks, hany]
      | cons q rest =>
        have hc : Chain w c p.Pagination.Next.Link (q :: rest) := hchain.2.2
        obtain ⟨r, hr, herr, hd, hreq⟩ := ih fuel (tick + 1) p hc (Nat.lt_of_succ_lt_succ hfuel)
        simp only [hr]
        refine ⟨_, rfl, rfl, ?_, ?_⟩
        · rw [hdata, hd]
        · have e1 : (p :: q :: rest).takeWhile (fun p => !hasBoundary c.LastSeenGUID now p)
              = p :: (q :: rest).takeWhile (fun p => !hasBoundary c.LastSeenGUID now p) := by
            rw [List.takeWhile_cons]; simp [hany]
          have e2 : pageLinks response.Pagination.Next.Link (p :: q :: rest)
              = response.Pagination.Next.Link :: pageLinks p.Pagination.Next.Link (q :: rest) :=
            rfl
          rw [hreq, e1, e2]
          simp only [List.length_cons]
          generalize ((q :: rest).takeWhile
            (fun p => !hasBoundary c.LastSeenGUID now p)).length = a
          have e3 : min (a + 1 + 1) (rest.length + 1 + 1) = min (a + 1) (rest.length + 1) + 1 := by
            omega
          rw [e3, List.take_succ_cons, List.map_cons]

theorem prefix_takeWhile {α : Type} (f : α → Bool) :
    ∀ (xs l : List α), l <+: xs → (∀ e ∈ l, f e = true) → l <+: xs.takeWhile f := by
  intro xs
  induction xs with
  | nil =>
    intro l hl _
    rw [List.prefix_nil] at hl
    rw [hl]
    exact List.nil_prefix
  | cons x xs ih =>
    intro l hl hf
    cases l with
    | nil => exact List.nil_prefix
    | cons y l =>
      rw [List.cons_prefix_cons] at hl
      obtain ⟨rfl, hl⟩ := hl
      have hy : f y = true := hf y (List.mem_cons_self y l)
      rw [List.takeWhile_cons, hy]
      simp only [if_true]
      rw [List.cons_prefix_cons]
      exact ⟨rfl, ih l hl (fun e he => hf e (List.mem_cons_of_mem y he))⟩

/-- C1. Over a chain of pages whose fetches succeed, with a fixed clock, the cycle returns
the events before the first boundary event, in the order of the pages: a prefix of the
events of the chain that holds no boundary event, and the longest such prefix. -/
theorem recursivelyGather_boundary_free (w : Upstream) (c : Collector) (now : Time)
    (pages : List eventsResponse) (fuel : Nat) (hclock : ∀ n, w.Now n = now)
    (hchain : Chain w c firstPage.Pagination.Next.Link pages) (hfuel : pages.length < fuel) :
    ∃ r, recursivelyGather w c fuel 0 firstPage = some r ∧ r.err = none ∧
      r.data = (allEvents pages).takeWhile (fun e => !isBoundary c.LastSeenGUID now e) ∧
      r.data <+: allEvents pages ∧
      (∀ e ∈ r.data, isBoundary c.LastSeenGUID now e = false) ∧
      (∀ l, l <+: allEvents pages → (∀ e ∈ l, isBoundary c.LastSeenGUID now e = false) →
        l <+: r.data) := by
  obtain ⟨r, h1, h2, h3, _⟩ := gather_chain w c now hclock pages fuel 0 firstPage hchain hfuel
  have hd : r.data =
      (allEvents pages).takeWhile (fun e => !isBoundary c.LastSeenGUID now e) := by
    simpa [firstPage] using h3
  refine ⟨r, h1, h2, hd, ?_, ?_, ?_⟩
  · rw [hd]; exact List.takeWhile_prefix _
  · intro e he
    rw [hd] at he
    simpa using List.mem_takeWhile_imp he
  · intro l hl hf
    rw [hd]
    exact prefix_takeWhile _ _ l hl (fun e he => by simp [hf e he])

/-- C1, witness. With the checkpoint `g5` and the single page `g9 .. g4`, the cycle returns
`g9, g8, g7, g6`. -/
theorem recursivelyGather_boundary_free_witness :
    Chain (onePage sixEvents) (sampleCollector "g5") firstPage.Pagination.Next.Link
        [lastPage sixEvents] ∧
      ∃ r, recursivelyGather (onePage sixEvents) (sampleCollector "g5") 2 0 firstPage = some r ∧
        r.err = none ∧
        r.data = [sampleEvent "g9" 10, sampleEvent "g8" 20, sampleEvent "g7" 30,
          sampleEvent "g6" 40] := by
  have hchain : Chain (onePage sixEvents) (sampleCollector "g5") firstPage.Pagination.Next.Link
      [lastPage sixEvents] := ⟨by decide, by decide, by decide⟩
  obtain ⟨r, h1, h2, h3, _⟩ := recursivelyGather_boundary_free (onePage sixEvents)
    (sampleCollector "g5") sampleNow [lastPage sixEvents] 2 (fun _ => rfl) hchain (by decide)
  exact ⟨hchain, r, h1, h2, h3.trans (by decide)⟩

/-- The requests of a cycle over a chain, with the clock read once per page: the page number
`j` of the chain is scanned against the instant `w.Now (tick + j)`. -/
theorem requests_chain (w : Upstream) (c : Collector) (pages : List eventsResponse) :
    ∀ (fuel tick : Nat) (response : eventsResponse),
      Chain w c response.Pagination.Next.Link pages → pages.length < fuel →
      ∃ r, recursivelyGather w c fuel tick response = some r ∧
        (∀ before pk after, pages = before ++ pk :: after →
          (∀ j p, before[j]? = some p →
            hasBoundary c.LastSeenGUID (w.Now (tick + j)) p = false) →
          hasBoundary c.LastSeenGUID (w.Now (tick + before.length)) pk = true →
          r.requests = ((pageLinks response.Pagination.Next.Link pages).take
            (before.length + 1)).map (fun l => c.CloudFoundryAPI ++ l)) ∧
        ((∀ j p, pages[j]? = some p →
            hasBoundary c.LastSeenGUID (w.Now (tick + j)) p = false) →
          r.requests = ((pageLinks response.Pagination.Next.Link pages).take
            pages.length).map (fun l => c.CloudFoundryAPI ++ l)) := by
  induction pages with
  | nil => intro fuel tick response h; exact absurd h (by simp [Chain])
  | cons p rest ih =>
    intro fuel tick response hchain hfuel
    obtain ⟨fuel, rfl⟩ : ∃ f, fuel = f + 1 := ⟨fuel - 1, by omega⟩
    have hlink : response.Pagination.Next.Link ≠ "" := by
      cases rest with
      | nil => exact hchain.1
      | cons q rest => exact hchain.1
    have hf : fetchPage w c response.Pagination.Next.Link = some p := by
      cases rest with
      | nil => exact hchain.2.1
      | cons q rest => exact hchain.2.1
    rw [recursivelyGather_fetched w c fuel tick response p hlink hf]
    cases hb : boundaryIndex c.LastSeenGUID (w.Now tick + (-1 * 6 * Hour)) p.Resources 0 with
    | some i =>
      obtain ⟨_, _, h3⟩ := boundaryIndex_some _ _ _ _ _ hb
      have hany : hasBoundary c.LastSeenGUID (w.Now tick) p = true := h3
      refine ⟨_, rfl, ?_, ?_⟩
      · intro before pk after hp hbefore _
        cases before with
        | nil => simp [pageLinks]
        | cons b bs =>
          have hb0 : b = p := by
            have := congrArg List.head? hp
            simpa using this.symm
          have := hbefore 0 b (by simp)
          rw [hb0, Nat.add_zero, hany] at this
          cases this
      · intro hall
        have := hall 0 p (by simp)
        rw [Nat.add_zero, hany] at this
        cases this
    | none =>
      obtain ⟨_, h3⟩ := boundaryIndex_none _ _ _ _ hb
      have hany : hasBoundary c.LastSeenGUID (w.Now tick) p = false := h3
      cases rest with
      | nil =>
        have hlast : p.Pagination.Next.Link = "" := hchain.2.2
        obtain ⟨fuel, rfl⟩ : ∃ f, fuel = f + 1 := ⟨fuel - 1, by simp at hfuel; omega⟩
        simp only [recursivelyGather_last w c _ _ p hlast]
        refine ⟨_, rfl, ?_, ?_⟩
        · intro before pk after hp _ hpk
          cases before with
          | nil =>
            have hpk0 : pk = p := by
              have := congrArg List.head? hp
              simpa using this.symm
            rw [hpk0, List.length_nil, Nat.add_zero, hany] at hpk
            cases hpk
          | cons b bs =>
            have := congrArg List.length hp
            simp at this
        · intro _
          simp [pageLinks]
      | cons q rest =>
        have hc : Chain w c p.Pagination.Next.Link (q :: rest) := hchain.2.2
        obtain ⟨r, hr, hA, hB⟩ := ih fuel (tick + 1) p hc (Nat.lt_of_succ_lt_succ hfuel)
        simp only [hr]
        have e2 : pageLinks response.Pagination.Next.Link (p :: q :: rest)
            = response.Pagination.Next.Link :: pageLinks p.Pagination.Next.Link (q :: rest) :=
          rfl
        refine ⟨_, rfl, ?_, ?_⟩
        · intro before pk after hp hbefore hpk
          cases before with
          | nil =>
            have hpk0 : pk = p := by
              have := congrArg List.head? hp
              simpa using this.symm
            rw [hpk0, List.length_nil, Nat.add_zero, hany] at hpk
            cases hpk
          | cons b bs =>
            have htail : q :: rest = bs ++ pk :: after := by
              have := congrArg List.tail hp
              simpa using this
            have hreq := hA bs pk after htail
              (fun j p' hj => by
                have := hbefore (j + 1) p' (by simpa using hj)
                rwa [show tick + (j + 1) = tick + 1 + j by omega] at this)
              (by
                rwa [show tick + (b :: bs).length = tick + 1 + bs.length by
                  simp only [List.length_cons]; omega] at hpk)
            show (c.CloudFoundryAPI ++ response.Pagination.Next.Link) :: r.requests = _
            rw [hreq, e2, List.length_cons, List.take_succ_cons, List.map_cons]
        · intro hall
          have hreq := hB (fun j p' hj => by
            have := hall (j + 1) p' (by simpa using hj)
            rwa [show tick + (j + 1) = tick + 1 + j by omega] at this)
          show (c.CloudFoundryAPI ++ response.Pagination.Next.Link) :: r.requests = _
          rw [hreq, e2, List.length_cons p, List.take_succ_cons, List.map_cons]

/-- C10. Over a chain of pages whose fetches succeed, with the page number `j` (from 0)
scanned against the instant `w.Now j` that the clock gives for it: when the first page that
holds a boundary event is the page after `before`, the cycle requests the pages up to and
including that one, each once and in order, and no later page; when no page holds a boundary
event, it requests every page once, in order, and stops at the page with no next link. -/
theorem recursivelyGather_requests (w : Upstream) (c : Collector)
    (pages : List eventsResponse) (fuel : Nat)
    (hchain : Chain w c firstPage.Pagination.Next.Link pages) (hfuel : pages.length < fuel) :
    ∃ r, recursivelyGather w c fuel 0 firstPage = some r ∧
      (∀ before pk after, pages = before ++ pk :: after →
        (∀ j p, before[j]? = some p → hasBoundary c.LastSeenGUID (w.Now j) p = false) →
        hasBoundary c.LastSeenGUID (w.Now before.length) pk = true →
        r.requests = ((pageLinks firstPage.Pagination.Next.Link pages).take
          (before.length + 1)).map (fun l => c.CloudFoundryAPI ++ l)) ∧
      ((∀ j p, pages[j]? = some p → hasBoundary c.LastSeenGUID (w.Now j) p = false) →
        r.requests = ((pageLinks firstPage.Pagination.Next.Link pages).take
          pages.length).map (fun l => c.CloudFoundryAPI ++ l)) := by
  obtain ⟨r, h1, hA, hB⟩ := requests_chain w c pages fuel 0 firstPage hchain hfuel
  refine ⟨r, h1, ?_, ?_⟩
  · intro before pk after hp hbefore hpk
    exact hA before pk after hp (fun j p hj => by rw [Nat.zero_add]; exact hbefore j p hj)
      (by rw [Nat.zero_add]; exact hpk)
  · intro hall
    exact hB (fun j p hj => by rw [Nat.zero_add]; exact hall j p hj)

/-- C10, witness. The clock advances by two minutes per page and the checkpoint is on no
page; the event of the second page falls out of the six hours at the scan of that page: the
cycle requests the first and the second page, and not the third. -/
theorem recursivelyGather_requests_witness :
    Chain edgePages (sampleCollector "g0") firstPage.Pagination.Next.Link
        [edgeOne, edgeTwo, pageThree] ∧
      ∃ r, recursivelyGather edgePages (sampleCollector "g0") 4 0 firstPage = some r ∧
        r.requests = [sampleFirstURL,
          "https://api.example.com/v3/audit_events?page=2&per_page=500"] := by
  have hchain : Chain edgePages (sampleCollector "g0") firstPage.Pagination.Next.Link
      [edgeOne, edgeTwo, pageThree] :=
    ⟨by decide, by decide, by decide, by decide, by decide, by decide, by decide⟩
  obtain ⟨r, h1, h2, _⟩ := recursivelyGather_requests edgePages (sampleCollector "g0")
    [edgeOne, edgeTwo, pageThree] 4 hchain (by decide)
  refine ⟨hchain, r, h1, ?_⟩
  rw [h2 [edgeOne] edgeTwo [pageThree] rfl ?_ (by decide)]
  · decide
  · intro j p hj
    cases j with
    | zero =>
      simp only [List.getElem?_cons_zero, Option.some.injEq] at hj
      subst hj
      decide
    | succ j => simp at hj

/-! ### The checkpoint and the queue (C3, C5) -/

theorem SanitizeAndQueue_keeps (Marshal : resource → Except String Bytes)
    (data : List resource) :
    ∀ c : Collector, (SanitizeAndQueue Marshal c data).1.LastSeenGUID = c.LastSeenGUID ∧
      (SanitizeAndQueue Marshal c data).1.CloudFoundryAPI = c.CloudFoundryAPI := by
  induction data with
  | nil => intro c; exact ⟨rfl, rfl⟩
  | cons e rest ih =>
    intro c
    rw [SanitizeAndQueue]
    split
    · exact ⟨rfl, rfl⟩
    · rename_i msg _
      exact ih { c with Destination := c.Destination ++ [msg] }

theorem collectEvents_gathered (w : Upstream) (Marshal : resource → Except String Bytes)
    (fuel : Nat) (c : Collector) (r : gathered)
    (hg : recursivelyGather w c fuel 0 firstPage = some r) (herr : r.err = none) :
    collectEvents w Marshal fuel c = some (SanitizeAndQueue Marshal
      (match r.data with
        | [] => c
        | first :: _ => { c with LastSeenGUID := first.GUID }) r.data) := by
  unfold collectEvents
  simp only [hg, herr]
  cases r.data with
  | nil => simp
  | cons first rest => simp

/-- C3. After an attempt whose gather step succeeds, the checkpoint is the GUID of the first
gathered event, or unchanged when nothing was gathered. -/
theorem collectEvents_checkpoint (w : Upstream) (Marshal : resource → Except String Bytes)
    (fuel : Nat) (c : Collector) (r : gathered)
    (hg : recursivelyGather w c fuel 0 firstPage = some r) (herr : r.err = none) :
    ∃ c' e, collectEvents w Marshal fuel c = some (c', e) ∧
      (∀ first rest, r.data = first :: rest → c'.LastSeenGUID = first.GUID) ∧
      (r.data = [] → c'.LastSeenGUID = c.LastSeenGUID) := by
  refine ⟨_, _, collectEvents_gathered w Marshal fuel c r hg herr, ?_, ?_⟩
  · intro first rest hd
    rw [(SanitizeAndQueue_keeps Marshal r.data _).1, hd]
  · intro hd
    rw [(SanitizeAndQueue_keeps Marshal r.data _).1, hd]

/-- C3, witness. With an empty checkpoint and a single page of three events within the window,
the gather step returns the three events and the checkpoint becomes `g9`. -/
theorem collectEvents_checkpoint_witness :
    recursivelyGather (onePage threeEvents) (sampleCollector "") 2 0 firstPage =
        some ⟨threeEvents, none, [sampleFirstURL]⟩ ∧
      ∃ c' e, collectEvents (onePage threeEvents) sampleMarshal 2 (sampleCollector "") =
        some (c', e) ∧ c'.LastSeenGUID = "g9" := by
  have hg : recursivelyGather (onePage threeEvents) (sampleCollector "") 2 0 firstPage =
      some ⟨threeEvents, none, [sampleFirstURL]⟩ := by decide
  obtain ⟨c', e, h1, h2, _⟩ := collectEvents_checkpoint (onePage threeEvents) sampleMarshal 2
    (sampleCollector "") _ hg rfl
  exact ⟨hg, c', e, h1, h2 (sampleEvent "g9" 10) _ rfl⟩

theorem anonymised_renamed (e : resource) : anonymised e (renamed e anonymous) :=
  ⟨rfl, rfl, rfl, rfl, rfl, rfl, rfl, rfl, rfl, rfl, rfl⟩

theorem SanitizeAndQueue_ok (Marshal : resource → Except String Bytes) (data : List resource) :
    ∀ c : Collector, (∀ e ∈ data, ∃ msg, Marshal (renamed e anonymous) = .ok msg) →
      ∃ msgs, SanitizeAndQueue Marshal c data =
          ({ c with Destination := c.Destination ++ msgs }, none) ∧
        List.Forall₂ (fun e msg => Marshal (renamed e anonymous) = .ok msg) data msgs := by
  induction data with
  | nil => intro c _; exact ⟨[], by simp [SanitizeAndQueue], List.Forall₂.nil⟩
  | cons e rest ih =>
    intro c hok
    obtain ⟨msg, hmsg⟩ := hok e (List.mem_cons_self e rest)
    obtain ⟨msgs, h1, h2⟩ := ih { c with Destination := c.Destination ++ [msg] }
      (fun x hx => hok x (List.mem_cons_of_mem e hx))
    refine ⟨msg :: msgs, ?_, List.Forall₂.cons hmsg h2⟩
    have hm : Marshal { e with Actor := { e.Actor with Name := anonymous } } = .ok msg := hmsg
    rw [SanitizeAndQueue]
    simp only [hm, h1, List.append_assoc, List.singleton_append]

theorem SanitizeAndQueue_renamed (Marshal : resource → Except String Bytes)
    (data : List resource) :
    ∀ (names : List String) (c : Collector), names.length = data.length →
      SanitizeAndQueue Marshal c (List.zipWith renamed data names) =
        SanitizeAndQueue Marshal c data := by
  induction data with
  | nil => intro names c _; simp
  | cons e rest ih =>
    intro names c hlen
    cases names with
    | nil => simp at hlen
    | cons name names =>
      have hl : names.length = rest.length := by simpa using hlen
      rw [List.zipWith_cons_cons, SanitizeAndQueue, SanitizeAndQueue]
      have he : ({ renamed e name with
          Actor := { (renamed e name).Actor with Name := anonymous } } : resource) =
          { e with Actor := { e.Actor with Name := anonymous } } := rfl
      rw [he]
      split
      · rfl
      · exact ih names _ hl

/-- C5. When every event serializes, `SanitizeAndQueue` sends one message per event, in the
order of the list; each message is the serialization of the event with the actor name
replaced by the placeholder and every other field kept; and the messages do not depend on
the actor names of the input. -/
theorem SanitizeAndQueue_messages (Marshal : resource → Except String Bytes) (c : Collector)
    (data : List resource)
    (hok : ∀ e ∈ data, ∃ msg, Marshal (renamed e anonymous) = .ok msg) :
    ∃ msgs, SanitizeAndQueue Marshal c data =
        ({ c with Destination := c.Destination ++ msgs }, none) ∧
      msgs.length = data.length ∧
      List.Forall₂ (fun e msg => ∃ e', anonymised e e' ∧ Marshal e' = .ok msg) data msgs ∧
      ∀ names : List String, names.length = data.length →
        SanitizeAndQueue Marshal c (List.zipWith renamed data names) =
          ({ c with Destination := c.Destination ++ msgs }, none) := by
  obtain ⟨msgs, h1, h2⟩ := SanitizeAndQueue_ok Marshal data c hok
  refine ⟨msgs, h1, h2.length_eq.symm, ?_, ?_⟩
  · exact h2.imp (fun e msg h => ⟨_, anonymised_renamed e, h⟩)
  · intro names hlen
    rw [SanitizeAndQueue_renamed Marshal data names c hlen, h1]

/-- C5, witness. Three events that serialize give three messages. -/
theorem SanitizeAndQueue_messages_witness :
    (∀ e ∈ threeEvents, ∃ msg, sampleMarshal (renamed e anonymous) = .ok msg) ∧
      ∃ msgs, SanitizeAndQueue sampleMarshal (sampleCollector "") threeEvents =
          ({ sampleCollector "" with Destination := msgs }, none) ∧
        msgs.length = 3 := by
  have hok : ∀ e ∈ threeEvents, ∃ msg, sampleMarshal (renamed e anonymous) = .ok msg :=
    fun e _ => ⟨_, rfl⟩
  obtain ⟨msgs, h1, h2, _⟩ := SanitizeAndQueue_messages sampleMarshal (sampleCollector "")
    threeEvents hok
  exact ⟨hok, msgs, h1, h2⟩

/-! ### Failures of a collection attempt (C2, C6, C7) -/

/-- C2, at a failing input. The second page fails in transport; `recursivelyGather` returns
the events of the first page with a nil error, and the attempt succeeds with the checkpoint
moved to the newest event. -/
theorem recursivelyGather_later_failure :
    fetchPage secondPageDown (sampleCollector "") pageOne.Pagination.Next.Link = none ∧
      recursivelyGather secondPageDown (sampleCollector "") 3 0 firstPage =
        some ⟨[sampleEvent "g9" 10, sampleEvent "g8" 20], none,
          [sampleFirstURL, "https://api.example.com/v3/audit_events?page=2&per_page=500"]⟩ ∧
      collectEvents secondPageDown sampleMarshal 3 (sampleCollector "") =
        some ({ sampleCollector "g9" with
          Destination := [utf8 "g9 ¯\\_(ツ)_/¯", utf8 "g8 ¯\\_(ツ)_/¯"] }, none) := by
  decide

/-- C6, counterexample. The gather step succeeds and the serialization of the first event
fails: the attempt returns an error and the checkpoint has moved. -/
theorem collectEvents_moves_checkpoint_on_error :
    collectEvents (onePage threeEvents) failingMarshal 2 (sampleCollector "") =
        some (sampleCollector "g9",
          some "unable to marshal an event into json: json: unsupported value") ∧
      (sampleCollector "g9").LastSeenGUID ≠ (sampleCollector "").LastSeenGUID := by
  decide

/-- C6, amended. An attempt that returns an error either failed in the gather step, and then
the collector is unchanged, or gathered a non-empty list and failed in the serialization,
and then the checkpoint is the GUID of the first gathered event. -/
theorem collectEvents_error (w : Upstream) (Marshal : resource → Except String Bytes)
    (fuel : Nat) (c c' : Collector) (err : String)
    (h : collectEvents w Marshal fuel c = some (c', some err)) :
    (∃ r e, recursivelyGather w c fuel 0 firstPage = some r ∧ r.err = some e ∧ c' = c) ∨
    (∃ r first rest, recursivelyGather w c fuel 0 firstPage = some r ∧ r.err = none ∧
      r.data = first :: rest ∧ c'.LastSeenGUID = first.GUID ∧
      SanitizeAndQueue Marshal { c with LastSeenGUID := first.GUID } r.data =
        (c', some err)) := by
  cases hg : recursivelyGather w c fuel 0 firstPage with
  | none => simp [collectEvents, hg] at h
  | some r =>
    cases herr : r.err with
    | some e =>
      left
      refine ⟨r, e, rfl, herr, ?_⟩
      simp only [collectEvents, hg, herr, Option.some.injEq, Prod.mk.injEq] at h
      exact h.1.symm
    | none =>
      right
      rw [collectEvents_gathered w Marshal fuel c r hg herr] at h
      simp only [Option.some.injEq] at h
      cases hd : r.data with
      | nil =>
        rw [hd] at h
        simp [SanitizeAndQueue] at h
      | cons first rest =>
        rw [hd] at h
        refine ⟨r, first, rest, rfl, herr, hd, ?_, ?_⟩
        · have hk := (SanitizeAndQueue_keeps Marshal (first :: rest)
            { c with LastSeenGUID := first.GUID }).1
          rw [h] at hk
          exact hk
        · rw [hd]; exact h

/-- C6, witness. The upstream is down: the attempt fails in the gather step and the collector
is unchanged. -/
theorem collectEvents_error_witness :
    collectEvents allDown sampleMarshal 1 (sampleCollector "g5") =
        some (sampleCollector "g5", some ("unable to recursively obtain resources: " ++
          "unable to scrape the audit events: dial tcp: no such host")) ∧
      ((∃ r e, recursivelyGather allDown (sampleCollector "g5") 1 0 firstPage = some r ∧
          r.err = some e ∧ sampleCollector "g5" = sampleCollector "g5") ∨
        (∃ r first rest, recursivelyGather allDown (sampleCollector "g5") 1 0 firstPage =
            some r ∧ r.err = none ∧ r.data = first :: rest ∧
          (sampleCollector "g5").LastSeenGUID = first.GUID ∧
          SanitizeAndQueue sampleMarshal
            { sampleCollector "g5" with LastSeenGUID := first.GUID } r.data =
            (sampleCollector "g5", some ("unable to recursively obtain resources: " ++
              "unable to scrape the audit events: dial tcp: no such host")))) := by
  have h : collectEvents allDown sampleMarshal 1 (sampleCollector "g5") =
      some (sampleCollector "g5", some ("unable to recursively obtain resources: " ++
        "unable to scrape the audit events: dial tcp: no such host")) := by decide
  exact ⟨h, collectEvents_error allDown sampleMarshal 1 (sampleCollector "g5") _ _ h⟩

/-- C7, counterexample. `c.client.Get` returns, for the first request, a response with the
status 500 and the body of an error: `recursivelyGather` returns no event and a nil error,
and the attempt succeeds. -/
theorem recursivelyGather_accepts_server_error :
    serverError.Get sampleFirstURL = .ok ⟨500, .ok errorBody⟩ ∧
      recursivelyGather serverError (sampleCollector "g5") 2 0 firstPage =
        some ⟨[], none, [sampleFirstURL]⟩ ∧
      collectEvents serverError sampleMarshal 2 (sampleCollector "g5") =
        some (sampleCollector "g5", none) := by
  refine ⟨rfl, by decide, by decide⟩

theorem recursivelyGather_withStatus (f : String → Nat → Nat) (w : Upstream) (c : Collector) :
    ∀ (fuel tick : Nat) (response : eventsResponse),
      recursivelyGather (withStatus f w) c fuel tick response =
        recursivelyGather w c fuel tick response := by
  intro fuel
  induction fuel with
  | zero => intro tick response; rfl
  | succ fuel ih =>
    intro tick response
    rw [recursivelyGather, recursivelyGather]
    by_cases hl : response.Pagination.Next.Link = ""
    · simp only [hl, if_true]
    · simp only [hl, if_false]
      have hget : ∀ url, (withStatus f w).Get url =
          match w.Get url with
          | .error err => .error err
          | .ok res => .ok { res with StatusCode := f url res.StatusCode } := fun _ => rfl
      rw [hget]
      cases w.Get (c.CloudFoundryAPI ++ response.Pagination.Next.Link) with
      | error err => rfl
      | ok res =>
        simp only
        cases res.Body with
        | error err => rfl
        | ok body =>
          simp only
          have hu : (withStatus f w).Unmarshal = w.Unmarshal := rfl
          have hn : (withStatus f w).Now = w.Now := rfl
          rw [hu, hn]
          cases w.Unmarshal body with
          | error err => rfl
          | ok newResponse =>
            simp only
            rw [ih]

/-- C7, amended. `recursivelyGather` does not read the status of the response that
`c.client.Get` returns: replacing the status of every returned response changes nothing in
its result. When the response returned for the first request has a body that decodes into a
page with no events and no next link, `recursivelyGather` returns no event and a nil error,
whatever the status; when its body cannot be read or decoded, `recursivelyGather` returns an
error, whatever the status. -/
theorem recursivelyGather_ignores_status (w : Upstream) (c : Collector) (fuel tick : Nat) :
    (∀ (f : String → Nat → Nat) (response : eventsResponse),
      recursivelyGather (withStatus f w) c fuel tick response =
        recursivelyGather w c fuel tick response) ∧
    (∀ (status : Nat) (body : Bytes) (page : eventsResponse),
      w.Get (c.CloudFoundryAPI ++ firstPage.Pagination.Next.Link) = .ok ⟨status, .ok body⟩ →
      w.Unmarshal body = .ok page → page.Resources = [] → page.Pagination.Next.Link = "" →
      recursivelyGather w c (fuel + 2) tick firstPage =
        some ⟨[], none, [c.CloudFoundryAPI ++ firstPage.Pagination.Next.Link]⟩) ∧
    (∀ (status : Nat) (body : Except String Bytes),
      w.Get (c.CloudFoundryAPI ++ firstPage.Pagination.Next.Link) = .ok ⟨status, body⟩ →
      (∀ b, body = .ok b → ∃ err, w.Unmarshal b = .error err) →
      ∃ r e, recursivelyGather w c (fuel + 1) tick firstPage = some r ∧ r.err = some e) := by
  refine ⟨fun f response => recursivelyGather_withStatus f w c fuel tick response, ?_, ?_⟩
  · intro status body page hget hu hres hlink
    have hf : fetchPage w c firstPage.Pagination.Next.Link = some page := by
      simp only [fetchPage, hget, hu]
    rw [recursivelyGather_fetched w c (fuel + 1) tick firstPage page (by decide) hf,
      recursivelyGather_last w c fuel (tick + 1) page hlink, hres]
    rfl
  · intro status body hget hbody
    rw [recursivelyGather]
    have hl : firstPage.Pagination.Next.Link ≠ "" := by decide
    simp only [hl, if_false, hget]
    cases body with
    | error err => exact ⟨_, _, rfl, rfl⟩
    | ok b =>
      obtain ⟨err, he⟩ := hbody b rfl
      simp only [he]
      exact ⟨_, _, rfl, rfl⟩

/-- C7, witness. The response with the status 500 and the body of an error is handled as the
same response with the status 200: no event, nil error. -/
theorem recursivelyGather_ignores_status_witness :
    recursivelyGather (withStatus (fun _ _ => 200) serverError) (sampleCollector "g5") 2 0
        firstPage = recursivelyGather serverError (sampleCollector "g5") 2 0 firstPage ∧
      recursivelyGather serverError (sampleCollector "g5") 2 0 firstPage =
        some ⟨[], none, [sampleFirstURL]⟩ :=
  ⟨(recursivelyGather_ignores_status serverError (sampleCollector "g5") 2 0).1
      (fun _ _ => 200) firstPage,
    (recursivelyGather_ignores_status serverError (sampleCollector "g5") 0 0).2.1 500 errorBody
      (lastPage []) rfl rfl rfl rfl⟩

/-! ### Authentication (C8) -/

/-- C8, counterexample. The token response is the empty JSON object, which has no
`access_token`: `Authenticate` returns a nil error and `AccessToken` is empty. -/
theorem Authenticate_accepts_missing_token :
    Auth.Authenticate (sampleUAA (utf8 "\x7b\x7d")) sampleAuth = (sampleAuth, none) ∧
      (Auth.Authenticate (sampleUAA (utf8 "\x7b\x7d")) sampleAuth).1.AccessToken = "" := by
  decide

/-- C8, amended. `Authenticate` returns an error exactly when the request cannot be
prepared, the transport fails, the body cannot be read, or `json.Unmarshal` rejects the
body. When it succeeds, `AccessToken` is the `AccessToken` of the record that
`json.Unmarshal` leaves; a body that `json.Unmarshal` accepts without touching the record
makes `Authenticate` succeed with the `Auth` unchanged. -/
theorem Authenticate_error_iff (u : UAA) (a : Auth) :
    ((Auth.Authenticate u a).2 ≠ none ↔
      (u.NewRequest "POST" (a.UAAAPI ++ "/oauth/token") ≠ none ∨
        (∃ err, u.Do (a.UAAAPI ++ "/oauth/token") = .error err) ∨
        (∃ res err, u.Do (a.UAAAPI ++ "/oauth/token") = .ok res ∧ res.Body = .error err) ∨
        (∃ res body, u.Do (a.UAAAPI ++ "/oauth/token") = .ok res ∧ res.Body = .ok body ∧
          (u.Unmarshal body a.tokens).2 ≠ none))) ∧
    ((Auth.Authenticate u a).2 = none →
      ∃ res body, u.Do (a.UAAAPI ++ "/oauth/token") = .ok res ∧ res.Body = .ok body ∧
        (Auth.Authenticate u a).1.AccessToken = (u.Unmarshal body a.tokens).1.AccessToken) ∧
    (∀ res body, u.NewRequest "POST" (a.UAAAPI ++ "/oauth/token") = none →
      u.Do (a.UAAAPI ++ "/oauth/token") = .ok res → res.Body = .ok body →
      u.Unmarshal body a.tokens = (a.tokens, none) → Auth.Authenticate u a = (a, none)) := by
  cases hreq : u.NewRequest "POST" (a.UAAAPI ++ "/oauth/token") with
  | some err =>
    have hval : Auth.Authenticate u a =
        (a, some ("unable to prepare authentication request: " ++ err)) := by
      simp only [Auth.Authenticate, hreq]
    rw [hval]
    simp
  | none =>
    cases hdo : u.Do (a.UAAAPI ++ "/oauth/token") with
    | error err =>
      have hval : Auth.Authenticate u a =
          (a, some ("unable to perform authentication request: " ++ err)) := by
        simp only [Auth.Authenticate, hreq, hdo]
      rw [hval]
      simp
    | ok res =>
      cases hbody : res.Body with
      | error err =>
        have hval : Auth.Authenticate u a =
            (a, some ("unable to parse authentication response: " ++ err)) := by
          simp only [Auth.Authenticate, hreq, hdo, hbody]
        rw [hval]
        refine ⟨by simp [hbody], by simp, ?_⟩
        intro res' body' _ hres hb'
        cases hres
        rw [hbody] at hb'
        cases hb'
      | ok body =>
        rcases hu : u.Unmarshal body a.tokens with ⟨tokens, _ | err⟩
        · have hval : Auth.Authenticate u a = ({ a with tokens := tokens }, none) := by
            simp only [Auth.Authenticate, hreq, hdo, hbody, hu]
          rw [hval]
          refine ⟨by simp [hbody, hu], fun _ => ⟨res, body, rfl, hbody, ?_⟩, ?_⟩
          · simp [Auth.AccessToken, hu]
          · intro res' body' _ hres hb' hu'
            cases hres
            rw [hbody] at hb'
            cases hb'
            rw [hu] at hu'
            cases hu'
            rfl
        · have hval : Auth.Authenticate u a = ({ a with tokens := tokens },
              some ("unable to unmarshal authentication response: " ++ err)) := by
            simp only [Auth.Authenticate, hreq, hdo, hbody, hu]
          rw [hval]
          refine ⟨by simp [hbody, hu], by simp, ?_⟩
          intro res' body' _ hres hb' hu'
          cases hres
          rw [hbody] at hb'
          cases hb'
          rw [hu] at hu'
          cases hu'

/-- C8, witness. A token response with an `access_token` makes `Authenticate` succeed, and
`AccessToken` returns its value. -/
theorem Authenticate_error_iff_witness :
    (Auth.Authenticate (sampleUAA (utf8 "\x7b\"access_token\":\"t0ken\"\x7d")) sampleAuth).2 =
        none ∧
      (Auth.Authenticate (sampleUAA (utf8 "\x7b\"access_token\":\"t0ken\"\x7d"))
        sampleAuth).1.AccessToken = "t0ken" := by
  have h : (Auth.Authenticate (sampleUAA (utf8 "\x7b\"access_token\":\"t0ken\"\x7d"))
      sampleAuth).2 = none := by decide
  obtain ⟨res, body, h1, h2, h3⟩ := (Authenticate_error_iff
    (sampleUAA (utf8 "\x7b\"access_token\":\"t0ken\"\x7d")) sampleAuth).2.1 h
  refine ⟨h, ?_⟩
  rw [h3]
  have hres : res = ⟨200, .ok (utf8 "\x7b\"access_token\":\"t0ken\"\x7d")⟩ := by
    have : (sampleUAA (utf8 "\x7b\"access_token\":\"t0ken\"\x7d")).Do
        (sampleAuth.UAAAPI ++ "/oauth/token") =
        .ok ⟨200, .ok (utf8 "\x7b\"access_token\":\"t0ken\"\x7d")⟩ := rfl
    rw [this] at h1
    cases h1
    rfl
  subst hres
  cases h2
  decide

/-! ### Deduplication (C4) -/

theorem Deduplicate_append (F : BloomFilter) (pre : List Bytes) (msg : Bytes) :
    Deduplicate F (pre ++ [msg]) = Deduplicate.receive F (Deduplicate F pre) msg := by
  simp [Deduplicate, List.foldl_append]

/-- The filter of the loop holds the forwarded payloads, and no payload was forwarded
twice. -/
theorem Deduplicate_invariant (F : BloomFilter) (hneg : NoFalseNegatives F)
    (Source : List Bytes) :
    (Deduplicate F Source).seenEvents =
        (Deduplicate F Source).Destination.foldl F.Add (F.New (1024 * 42) 9) ∧
      (Deduplicate F Source).Destination.Nodup := by
  induction Source using List.reverseRecOn with
  | nil => exact ⟨rfl, List.nodup_nil⟩
  | append_singleton pre msg ih =>
    obtain ⟨hseen, hnodup⟩ := ih
    rw [Deduplicate_append]
    unfold Deduplicate.receive
    cases ht : F.Test (Deduplicate F pre).seenEvents msg with
    | true => simpa using ⟨hseen, hnodup⟩
    | false =>
      have hnot : msg ∉ (Deduplicate F pre).Destination := by
        intro hmem
        have := hneg (1024 * 42) 9 _ msg hmem
        rw [← hseen, ht] at this
        cases this
      simp only [Bool.not_false, if_true]
      refine ⟨?_, ?_⟩
      · rw [List.foldl_append, ← hseen]; rfl
      · rw [List.nodup_append]
        refine ⟨hnodup, List.nodup_singleton msg, ?_⟩
        intro x hx hx2
        rw [List.mem_singleton] at hx2
        exact hnot (hx2 ▸ hx)

theorem firstOccurrences_append (l : List Bytes) (msg : Bytes) :
    firstOccurrences (l ++ [msg]) =
      if msg ∈ firstOccurrences l then firstOccurrences l else firstOccurrences l ++ [msg] := by
  induction l with
  | nil => simp [firstOccurrences]
  | cons x rest ih =>
    have e : firstOccurrences (x :: rest ++ [msg]) =
        x :: (firstOccurrences (rest ++ [msg])).filter (fun y => decide (y ≠ x)) := rfl
    have e2 : firstOccurrences (x :: rest) =
        x :: (firstOccurrences rest).filter (fun y => decide (y ≠ x)) := rfl
    rw [e, e2, ih]
    by_cases hx : msg = x
    · subst hx
      have hm' : msg ∈ msg :: (firstOccurrences rest).filter (fun y => decide (y ≠ msg)) :=
        List.mem_cons_self _ _
      rw [if_pos hm']
      by_cases hm : msg ∈ firstOccurrences rest
      · rw [if_pos hm]
      · rw [if_neg hm, List.filter_append]
        simp
    · by_cases hm : msg ∈ firstOccurrences rest
      · have hm' : msg ∈ x :: (firstOccurrences rest).filter (fun y => decide (y ≠ x)) :=
          List.mem_cons_of_mem _ (List.mem_filter.2 ⟨hm, by simpa using hx⟩)
        rw [if_pos hm, if_pos hm']
      · have hm' : msg ∉ x :: (firstOccurrences rest).filter (fun y => decide (y ≠ x)) := by
          simp [hx, hm]
        rw [if_neg hm, if_neg hm', List.filter_append]
        simp [hx]

theorem exactFilter_mem (added : List Bytes) :
    ∀ (seen : List Bytes) (x : Bytes),
      x ∈ added.foldl (fun (s : List Bytes) (y : Bytes) => y :: s) seen ↔
        x ∈ seen ∨ x ∈ added := by
  induction added with
  | nil => intro seen x; simp
  | cons a rest ih =>
    intro seen x
    rw [List.foldl_cons, ih]
    simp only [List.mem_cons]
    tauto

theorem exactFilter_test (m k : Nat) (added : List Bytes) (x : Bytes) :
    exactFilter.Test (added.foldl exactFilter.Add (exactFilter.New m k)) x = true ↔
      x ∈ added := by
  have h : exactFilter.Test (added.foldl exactFilter.Add (exactFilter.New m k)) x =
      (added.foldl (fun (s : List Bytes) (y : Bytes) => y :: s) []).contains x := rfl
  have hc : ∀ l : List Bytes, l.contains x = true ↔ x ∈ l := fun l => by simp
  rw [h, hc, exactFilter_mem]
  simp

/-- C4. With a filter without false negatives no payload is forwarded twice; a payload is
forwarded when the filter reports it absent and dropped, with one line logged, when the
filter reports it present; and with a filter without false positives either, the forwarded
payloads are the first occurrences of the distinct payloads, in the order of the input. -/
theorem Deduplicate_forwards (F : BloomFilter) (Source : List Bytes)
    (hneg : NoFalseNegatives F) :
    (Deduplicate F Source).Destination.Nodup ∧
    (∀ (pre : List Bytes) (msg : Bytes),
      (F.Test (Deduplicate F pre).seenEvents msg = false →
        (Deduplicate F (pre ++ [msg])).Destination = (Deduplicate F pre).Destination ++ [msg] ∧
        (Deduplicate F (pre ++ [msg])).log = (Deduplicate F pre).log) ∧
      (F.Test (Deduplicate F pre).seenEvents msg = true →
        (Deduplicate F (pre ++ [msg])).Destination = (Deduplicate F pre).Destination ∧
        (Deduplicate F (pre ++ [msg])).log =
          (Deduplicate F pre).log ++ ["Deduplicator: Deduplicated an event"])) ∧
    (NoFalsePositives F → (Deduplicate F Source).Destination = firstOccurrences Source) := by
  refine ⟨(Deduplicate_invariant F hneg Source).2, ?_, ?_⟩
  · intro pre msg
    rw [Deduplicate_append]
    unfold Deduplicate.receive
    constructor
    · intro ht
      simp [ht]
    · intro ht
      simp [ht]
  · intro hpos
    induction Source using List.reverseRecOn with
    | nil => rfl
    | append_singleton pre msg ih =>
      have hseen := (Deduplicate_invariant F hneg pre).1
      rw [Deduplicate_append, firstOccurrences_append, ← ih]
      unfold Deduplicate.receive
      by_cases hm : msg ∈ (Deduplicate F pre).Destination
      · have ht : F.Test (Deduplicate F pre).seenEvents msg = true := by
          rw [hseen]; exact hneg _ _ _ _ hm
        simp [ht, hm]
      · have ht : F.Test (Deduplicate F pre).seenEvents msg = false := by
          rw [← Bool.not_eq_true]
          intro h
          rw [hseen] at h
          exact hm (hpos _ _ _ _ h)
        simp [ht, hm]

/-- C4, witness. The same payload received twice by a fresh deduplicator with an exact filter
is forwarded once, and one drop is logged. -/
theorem Deduplicate_forwards_witness :
    NoFalseNegatives exactFilter ∧
      (Deduplicate exactFilter [utf8 "g9", utf8 "g9"]).Destination = [utf8 "g9"] ∧
      (Deduplicate exactFilter [utf8 "g9", utf8 "g9"]).log =
        ["Deduplicator: Start", "Deduplicator: Deduplicated an event"] := by
  have hneg : NoFalseNegatives exactFilter := fun m k added x h =>
    (exactFilter_test m k added x).2 h
  have hpos : NoFalsePositives exactFilter := fun m k added x h =>
    (exactFilter_test m k added x).1 h
  refine ⟨hneg, ?_, by decide⟩
  rw [(Deduplicate_forwards exactFilter [utf8 "g9", utf8 "g9"] hneg).2.2 hpos]
  decide

/-! ### The retry of a tick (C9) -/

theorem retryLoop_bound {σ : Type} (operation : Nat → σ → Option (σ × Option String)) :
    ∀ (fuel : Nat) (b : backOffTries) (s : σ) (n : Nat) (r : retried σ),
      retryLoop operation fuel b s n = some r → 0 < b.maxTries → b.numTries ≤ b.maxTries →
      r.executions + b.numTries ≤ n + b.maxTries + 1 := by
  intro fuel
  induction fuel with
  | zero => intro b s n r h; simp [retryLoop] at h
  | succ fuel ih =>
    intro b s n r h hmax hnum
    rw [retryLoop] at h
    split at h
    · simp at h
    · simp only [Option.some.injEq] at h
      subst h
      show n + 1 + b.numTries ≤ n + b.maxTries + 1
      omega
    · rename_i s' err _
      unfold backOffTries.NextBackOff at h
      rw [if_pos hmax] at h
      by_cases hle : b.maxTries ≤ b.numTries
      · rw [if_pos hle] at h
        simp only [Option.some.injEq] at h
        subst h
        show n + 1 + b.numTries ≤ n + b.maxTries + 1
        omega
      · rw [if_neg hle] at h
        simp only at h
        split at h
        · simp only [Option.some.injEq] at h
          subst h
          show n + 1 + b.numTries ≤ n + b.maxTries + 1
          omega
        · rename_i b' d hb
          simp only [Prod.mk.injEq] at hb
          obtain ⟨hb1, _⟩ := hb
          have := ih b' s' (n + 1) r h (by rw [← hb1]; exact hmax) (by rw [← hb1]; show b.numTries + 1 ≤ b.maxTries; omega)
          rw [← hb1] at this
          have h2 : r.executions + (b.numTries + 1) ≤ n + 1 + b.maxTries + 1 := this
          omega

theorem retryLoop_failed {σ : Type} (operation : Nat → σ → Option (σ × Option String))
    (fuel : Nat) (b : backOffTries) (s s' : σ) (n : Nat) (err : String)
    (hop : operation n s = some (s', some err)) (hmax : 0 < b.maxTries)
    (hnum : b.numTries < b.maxTries) (hd : b.delegate b.delegateCalls ≠ none) :
    retryLoop operation (fuel + 1) b s n =
      retryLoop operation fuel ⟨b.delegate, b.delegateCalls + 1, b.maxTries, b.numTries + 1⟩
        s' (n + 1) := by
  rw [retryLoop]
  simp only [hop]
  unfold backOffTries.NextBackOff
  rw [if_pos hmax, if_neg (by omega)]
  simp only
  cases hdel : b.delegate b.delegateCalls with
  | none => exact absurd hdel hd
  | some d => rfl

theorem retryLoop_stopped {σ : Type} (operation : Nat → σ → Option (σ × Option String))
    (fuel : Nat) (b : backOffTries) (s s' : σ) (n : Nat) (err : String)
    (hop : operation n s = some (s', some err)) (hmax : 0 < b.maxTries)
    (hnum : b.maxTries ≤ b.numTries) :
    retryLoop operation (fuel + 1) b s n = some ⟨s', some err, n + 1⟩ := by
  rw [retryLoop]
  simp only [hop]
  unfold backOffTries.NextBackOff
  rw [if_pos hmax, if_pos hnum]

theorem retryLoop_succeeded {σ : Type} (operation : Nat → σ → Option (σ × Option String))
    (fuel : Nat) (b : backOffTries) (s s' : σ) (n : Nat)
    (hop : operation n s = some (s', none)) :
    retryLoop operation (fuel + 1) b s n = some ⟨s', none, n + 1⟩ := by
  rw [retryLoop]
  simp only [hop]

/-- After `k` failed executions, each followed by a retry, the loop is at the execution
number `n + k` with `k` more tries counted. -/
theorem retryLoop_failures {σ : Type} (operation : Nat → σ → Option (σ × Option String))
    (k : Nat) :
    ∀ (fuel : Nat) (b : backOffTries) (s : σ) (n : Nat),
      (∀ i, i < k → ∃ s' err, executionFrom operation n s i = some (s', some err)) →
      0 < b.maxTries → b.numTries + k ≤ b.maxTries →
      (∀ i, i < k → b.delegate (b.delegateCalls + i) ≠ none) →
      ∃ s', retryLoop operation (fuel + k) b s n =
          retryLoop operation fuel
            ⟨b.delegate, b.delegateCalls + k, b.maxTries, b.numTries + k⟩ s' (n + k) ∧
        ∀ j, executionFrom operation (n + k) s' j = executionFrom operation n s (k + j) := by
  induction k with
  | zero =>
    intro fuel b s n _ _ _ _
    exact ⟨s, rfl, fun j => by rw [Nat.zero_add]; rfl⟩
  | succ k ih =>
    intro fuel b s n hfail hmax hnum hd
    obtain ⟨s1, e1, h0⟩ := hfail 0 (Nat.succ_pos k)
    have hop : operation n s = some (s1, some e1) := h0
    have hshift : ∀ j, executionFrom operation (n + 1) s1 j =
        executionFrom operation n s (j + 1) := by
      intro j
      conv => rhs; rw [executionFrom]
      simp only [hop]
    have hstep := retryLoop_failed operation (fuel + k) b s s1 n e1 hop hmax (by omega)
      (by simpa using hd 0 (Nat.succ_pos k))
    obtain ⟨s', h1, h2⟩ := ih fuel
      ⟨b.delegate, b.delegateCalls + 1, b.maxTries, b.numTries + 1⟩ s1 (n + 1)
      (fun i hi => by rw [hshift]; exact hfail (i + 1) (Nat.succ_lt_succ hi)) hmax
      (by show b.numTries + 1 + k ≤ b.maxTries; omega)
      (fun i hi => by
        have := hd (i + 1) (Nat.succ_lt_succ hi)
        show b.delegate (b.delegateCalls + 1 + i) ≠ none
        rwa [Nat.add_assoc, Nat.add_comm 1 i])
    refine ⟨s', ?_, ?_⟩
    · have e : fuel + (k + 1) = fuel + k + 1 := rfl
      rw [e, hstep, h1]
      have a1 : b.delegateCalls + 1 + k = b.delegateCalls + (k + 1) := by omega
      have a2 : b.numTries + 1 + k = b.numTries + (k + 1) := by omega
      have a3 : n + 1 + k = n + (k + 1) := by omega
      simp only [a1, a2, a3]
    · intro j
      have a3 : n + (k + 1) = n + 1 + k := by omega
      rw [a3, h2, hshift]
      congr 1
      omega

theorem Collect_tick_of_loop (w : Nat → Upstream) (Marshal : resource → Except String Bytes)
    (delegate : Nat → Option Duration) (gatherFuel retryFuel : Nat) (c : Collector)
    (r : retried Collector)
    (h : retryLoop (fun n c => collectEvents (w n) Marshal gatherFuel c) retryFuel
      ⟨delegate, 0, 10, 0⟩ c 0 = some r) :
    Collect.tick w Marshal delegate gatherFuel retryFuel c =
      match r.err with
      | some err =>
        some (.fatal r.state
          ("Collector: Fatal err encountered after 10 retries: " ++ err ++ "\n"), r.executions)
      | none => some (.waiting r.state, r.executions) := by
  have hr : Retry (fun n c => collectEvents (w n) Marshal gatherFuel c) retryFuel
      (WithMaxRetries delegate 10) c = some r := h
  unfold Collect.tick
  simp only [hr]

/-- C9, counterexample. Every execution of `collectEvents` fails and the wrapped policy
never stops: the tick ends in `log.Fatalf` after 11 executions, so after ten failed
executions an eleventh one is made. -/
theorem Collect_tick_eleven_executions :
    (∀ k, k < 10 → ∃ c err, attempt (fun _ => allDown) sampleMarshal 1 (sampleCollector "g5") k =
      some (c, some err)) ∧
    Collect.tick (fun _ => allDown) sampleMarshal neverStops 1 11 (sampleCollector "g5") =
      some (.fatal (sampleCollector "g5")
        ("Collector: Fatal err encountered after 10 retries: " ++
          "unable to recursively obtain resources: " ++
          "unable to scrape the audit events: dial tcp: no such host\n"), 11) := by
  refine ⟨?_, by decide⟩
  intro k hk
  refine ⟨sampleCollector "g5", "unable to recursively obtain resources: " ++
    "unable to scrape the audit events: dial tcp: no such host", ?_⟩
  interval_cases k <;> decide

/-- C9, amended. In one tick `collectEvents` is executed at most 11 times: once, and at most
10 times more as a retry. When the first 11 executions all fail (and the wrapped policy does
not stop before), there is no twelfth one and the tick ends in `log.Fatalf`. When an
execution succeeds after failed ones, it is the last one of the tick and the loop goes back
to waiting for the next tick. -/
theorem Collect_tick_executions (w : Nat → Upstream) (Marshal : resource → Except String Bytes)
    (delegate : Nat → Option Duration) (gatherFuel retryFuel : Nat) (c : Collector)
    (hfuel : 11 ≤ retryFuel) :
    (∀ e n, Collect.tick w Marshal delegate gatherFuel retryFuel c = some (e, n) → n ≤ 11) ∧
    ((∀ k, k < 11 → ∃ c' err, attempt w Marshal gatherFuel c k = some (c', some err)) →
      (∀ i, i < 10 → delegate i ≠ none) →
      ∃ c' message,
        Collect.tick w Marshal delegate gatherFuel retryFuel c = some (.fatal c' message, 11)) ∧
    (∀ k c', k ≤ 10 →
      (∀ j, j < k → ∃ c'' err, attempt w Marshal gatherFuel c j = some (c'', some err)) →
      attempt w Marshal gatherFuel c k = some (c', none) →
      (∀ i, i < k → delegate i ≠ none) →
      Collect.tick w Marshal delegate gatherFuel retryFuel c = some (.waiting c', k + 1)) := by
  refine ⟨?_, ?_, ?_⟩
  · intro e n h
    cases hr : retryLoop (fun n c => collectEvents (w n) Marshal gatherFuel c) retryFuel
        ⟨delegate, 0, 10, 0⟩ c 0 with
    | none =>
      have hr' : Retry (fun n c => collectEvents (w n) Marshal gatherFuel c) retryFuel
          (WithMaxRetries delegate 10) c = none := hr
      simp [Collect.tick, hr'] at h
    | some r =>
      have hb := retryLoop_bound _ _ _ _ _ r hr (by show 0 < 10; decide)
        (by show 0 ≤ 10; decide)
      have hb' : r.executions + 0 ≤ 0 + 10 + 1 := hb
      rw [Collect_tick_of_loop w Marshal delegate gatherFuel retryFuel c r hr] at h
      split at h
      · simp only [Option.some.injEq, Prod.mk.injEq] at h
        omega
      · simp only [Option.some.injEq, Prod.mk.injEq] at h
        omega
  · intro hfail hd
    obtain ⟨fuel, rfl⟩ : ∃ f, retryFuel = f + 1 + 10 := ⟨retryFuel - 11, by omega⟩
    obtain ⟨s', h1, h2⟩ := retryLoop_failures
      (fun n c => collectEvents (w n) Marshal gatherFuel c) 10 (fuel + 1) ⟨delegate, 0, 10, 0⟩
      c 0 (fun i hi => hfail i (by omega)) (by show 0 < 10; decide)
      (by show 0 + 10 ≤ 10; decide)
      (fun i hi => by simpa using hd i hi)
    obtain ⟨c', err, h3⟩ := hfail 10 (by decide)
    have hop : collectEvents (w 10) Marshal gatherFuel s' = some (c', some err) := by
      have := h2 0
      rw [show executionFrom (fun n c => collectEvents (w n) Marshal gatherFuel c) 0 c (10 + 0)
        = some (c', some err) from h3] at this
      exact this
    have hloop := retryLoop_stopped (fun n c => collectEvents (w n) Marshal gatherFuel c) fuel
      ⟨delegate, 0 + 10, 10, 0 + 10⟩ s' c' (0 + 10) err hop
      (by show 0 < 10; decide) (by show 10 ≤ 0 + 10; decide)
    rw [hloop] at h1
    rw [Collect_tick_of_loop w Marshal delegate gatherFuel _ c _ h1]
    exact ⟨c', _, rfl⟩
  · intro k c' hk hfail hsucc hd
    obtain ⟨fuel, rfl⟩ : ∃ f, retryFuel = f + 1 + k := ⟨retryFuel - 1 - k, by omega⟩
    obtain ⟨s', h1, h2⟩ := retryLoop_failures
      (fun n c => collectEvents (w n) Marshal gatherFuel c) k (fuel + 1) ⟨delegate, 0, 10, 0⟩
      c 0 hfail (by show 0 < 10; decide) (by show 0 + k ≤ 10; omega)
      (fun i hi => by simpa using hd i hi)
    have hop : collectEvents (w (0 + k)) Marshal gatherFuel s' = some (c', none) := by
      have := h2 0
      rw [show executionFrom (fun n c => collectEvents (w n) Marshal gatherFuel c) 0 c (k + 0)
        = some (c', none) from hsucc] at this
      exact this
    have hloop := retryLoop_succeeded (fun n c => collectEvents (w n) Marshal gatherFuel c) fuel
      ⟨delegate, 0 + k, 10, 0 + k⟩ s' c' (0 + k) hop
    rw [hloop] at h1
    rw [Collect_tick_of_loop w Marshal delegate gatherFuel _ c _ h1]
    simp

/-- C9, witness. The upstream is down during two executions and up at the third one: the tick
makes three executions and goes back to waiting. -/
theorem Collect_tick_executions_witness :
    attempt downTwice sampleMarshal 2 (sampleCollector "") 2 =
        some ({ sampleCollector "g9" with
          Destination := [utf8 "g9 ¯\\_(ツ)_/¯", utf8 "g8 ¯\\_(ツ)_/¯", utf8 "g7 ¯\\_(ツ)_/¯"] },
          none) ∧
      Collect.tick downTwice sampleMarshal neverStops 2 11 (sampleCollector "") =
        some (.waiting { sampleCollector "g9" with
          Destination := [utf8 "g9 ¯\\_(ツ)_/¯", utf8 "g8 ¯\\_(ツ)_/¯", utf8 "g7 ¯\\_(ツ)_/¯"] },
          3) := by
  have hsucc : attempt downTwice sampleMarshal 2 (sampleCollector "") 2 =
      some ({ sampleCollector "g9" with
        Destination := [utf8 "g9 ¯\\_(ツ)_/¯", utf8 "g8 ¯\\_(ツ)_/¯", utf8 "g7 ¯\\_(ツ)_/¯"] },
        none) := by decide
  refine ⟨hsucc, ?_⟩
  refine (Collect_tick_executions downTwice sampleMarshal neverStops 2 11 (sampleCollector "")
    (by decide)).2.2 2 _ (by decide) ?_ hsucc (fun i _ => by simp [neverStops])
  intro j hj
  refine ⟨sampleCollector "", "unable to recursively obtain resources: " ++
    "unable to scrape the audit events: dial tcp: no such host", ?_⟩
  interval_cases j <;> decide

end AuditToSplunk
